import Mathlib

/-!
Verification development for the protobuf-edition-lsp core pipeline
(`src/parser/lexer.rs`, `src/parser/parser_impl.rs`, `src/parser/mod.rs`,
`src/parser/validator.rs`): a shallow embedding of the lexer, the
recursive-descent parser and the semantic validator, together with theorems
settling the specification claims about them.

Modelling conventions:
* Rust `u32` field numbers become `Nat` (every value the parser produces is
  checked against the `u32` range by `parseU32?`); `i32` enum numbers become
  `Int` with the `i32` range checked by `parseI32?`.
* `HashMap<String, V>` becomes an association list with insert-replaces-value
  semantics (`OptMap.insert`); `HashSet` becomes a list used only through
  membership, exactly how the Rust code uses it.
* `OptionValue::Number(f64)` keeps the source literal text instead of the
  float value: no claim compares float values, and the only observable part
  of the Rust `parse::<f64>()` call is whether it succeeds, modelled by
  `f64Accepts` (for the lexer's `[-]?[0-9.]*` lexemes, Rust's `f64::from_str`
  succeeds exactly when the lexeme has at least one digit and at most one
  dot).
* Rust's Unicode character classes (`is_whitespace`, `is_alphabetic`,
  `is_numeric`, `is_alphanumeric`) are modelled by Lean's ASCII classifiers;
  the claims only involve ASCII input.
* Loops are modelled by fuel-indexed structural recursion so that every
  definition evaluates inside the kernel; the fuel handed out by the entry
  points is far larger than any possible number of iterations (each loop
  iteration consumes at least one character or token).
-/

namespace Proto

/-- `FieldLabel` from `src/parser/mod.rs`. -/
inductive FieldLabel where
  | Optional
  | Required
  | Repeated
deriving DecidableEq, Repr

/-- `OptionValue` from `src/parser/mod.rs`. `Number` keeps the literal text
of the Rust `f64` (see the module conventions above). -/
inductive OptionValue where
  | String (s : String)
  | Number (lit : String)
  | Bool (b : Bool)
  | Identifier (s : String)
deriving DecidableEq, Repr

/-- `HashMap<String, OptionValue>` as an association list. -/
def OptMap := List (String × OptionValue)
deriving DecidableEq, Repr

/-- `HashMap::insert`: replace the value when the key is present, add the
pair otherwise. -/
def OptMap.insert : OptMap → String → OptionValue → OptMap
  | [], k, v => [(k, v)]
  | (k', v') :: rest, k, v =>
      if k' = k then (k, v) :: rest else (k', v') :: OptMap.insert rest k v

/-- `HashMap::get`: value stored at a key. -/
def OptMap.lookup : OptMap → String → Option OptionValue
  | [], _ => none
  | (k', v') :: rest, k => if k' = k then some v' else OptMap.lookup rest k

/-- `Field` from `src/parser/mod.rs` (`number` is a Rust `u32`). -/
structure Field where
  name : String
  field_type : String
  number : Nat
  label : Option FieldLabel
  options : OptMap
deriving DecidableEq, Repr

/-- `Oneof` from `src/parser/mod.rs`. -/
structure Oneof where
  name : String
  fields : List Field
deriving DecidableEq, Repr

/-- `EnumValue` from `src/parser/mod.rs` (`number` is a Rust `i32`). -/
structure EnumValue where
  name : String
  number : Int
  options : OptMap
deriving DecidableEq, Repr

/-- `Enum` from `src/parser/mod.rs`. -/
structure Enum where
  name : String
  values : List EnumValue
  options : OptMap
deriving DecidableEq, Repr

/-- `Method` from `src/parser/mod.rs`. -/
structure Method where
  name : String
  request_type : String
  response_type : String
  client_streaming : Bool
  server_streaming : Bool
  options : OptMap
deriving DecidableEq, Repr

/-- `Service` from `src/parser/mod.rs`. -/
structure Service where
  name : String
  methods : List Method
  options : OptMap
deriving DecidableEq, Repr

/-- `Message` from `src/parser/mod.rs`; an inductive because Rust's struct
is recursive through `nested_messages`. -/
inductive Message where
  | mk (name : String) (fields : List Field) (oneofs : List Oneof)
       (nested_messages : List Message) (nested_enums : List Enum)
       (options : OptMap)

def Message.name : Message → String
  | .mk n _ _ _ _ _ => n

def Message.fields : Message → List Field
  | .mk _ fs _ _ _ _ => fs

def Message.oneofs : Message → List Oneof
  | .mk _ _ os _ _ _ => os

def Message.nested_messages : Message → List Message
  | .mk _ _ _ nm _ _ => nm

def Message.nested_enums : Message → List Enum
  | .mk _ _ _ _ ne _ => ne

def Message.options : Message → OptMap
  | .mk _ _ _ _ _ o => o

/-- `Statement` from `src/parser/mod.rs`. -/
inductive Statement where
  | Package (name : String)
  | Import (path : String) (isPublic : Bool) (isWeak : Bool)
  | Message (m : Message)
  | Enum (e : Enum)
  | Service (s : Service)
  | Option (name : String) (value : OptionValue)

/-- `ProtoFile` from `src/parser/mod.rs`. The Rust field `syntax` is renamed
`syntaxStr` because `syntax` is a Lean keyword. -/
structure ProtoFile where
  syntaxStr : Option String
  edition : Option String
  statements : List Statement

/-- `ParseError` from `src/parser/mod.rs`. The parser never constructs
`InvalidSyntax` or `UnexpectedEof`; `UnexpectedEof` doubles as the marker the
embedding returns on fuel exhaustion, which adequate fuel makes unreachable. -/
inductive ParseError where
  | UnexpectedToken (s : String)
  | Expected (expected : String) (found : String)
  | InvalidSyntax (s : String)
  | UnterminatedString
  | InvalidNumber (s : String)
  | UnexpectedEof
deriving DecidableEq, Repr

/-- `Token` from `src/parser/lexer.rs`. -/
inductive Token where
  | Syntax
  | Edition
  | Package
  | Import
  | Public
  | Weak
  | Message
  | Enum
  | Service
  | Rpc
  | Returns
  | Stream
  | Optional
  | Required
  | Repeated
  | Oneof
  | Option
  | True
  | False
  | Identifier (s : String)
  | StringLiteral (s : String)
  | NumberLiteral (s : String)
  | LeftBrace
  | RightBrace
  | LeftParen
  | RightParen
  | LeftBracket
  | RightBracket
  | Semicolon
  | Comma
  | Equals
  | Dot
  | Eof
deriving DecidableEq, Repr

/-! ## Lexer (`src/parser/lexer.rs`)

The lexer state is the list of not-yet-consumed characters: the Rust
`(input, position)` cursor only ever reads forward of `position`, so the
remaining suffix captures it exactly (`position + 1 < len` becomes "at least
two characters remain"). -/

/-- The body of the `//` comment skip: stop at the next newline (the newline
itself stays, the outer loop consumes it as whitespace). -/
def lineSkip (l : List Char) : List Char := l.dropWhile (fun c => c ≠ '\n')

/-- The `/* ... */` skip loop of `skip_whitespace_and_comments`: runs `while
position + 1 < len`, so it stops as soon as at most one character remains —
the final character of an unterminated comment is NOT consumed. -/
def blockSkip : List Char → List Char
  | a :: b :: rest =>
      if a = '*' ∧ b = '/' then rest else blockSkip (b :: rest)
  | l => l

/-- `Lexer::skip_whitespace_and_comments`; fuel-indexed, each iteration
consumes at least one character so `length + 1` fuel always suffices. -/
def skipWS : Nat → List Char → List Char
  | 0, l => l
  | fuel + 1, l =>
    match l with
    | [] => []
    | c :: rest =>
      if c.isWhitespace then skipWS fuel rest
      else if c = '/' then
        match rest with
        | '/' :: r2 => skipWS fuel (lineSkip r2)
        | '*' :: r2 => skipWS fuel (blockSkip r2)
        | _ => c :: rest
      else c :: rest

/-- The escape table of `Lexer::read_string`: any character other than the
five named ones passes through literally. -/
def unescape (c : Char) : Char :=
  if c = 'n' then '\n'
  else if c = 'r' then '\r'
  else if c = 't' then '\t'
  else c

/-- The body loop of `Lexer::read_string`, after the opening quote: returns
the decoded characters and the rest of the input past the closing quote. -/
def readStringLoop : List Char → Except ParseError (List Char × List Char)
  | [] => .error .UnterminatedString
  | c :: rest =>
    if c = '"' then .ok ([], rest)
    else if c = '\\' then
      match rest with
      | [] => .error .UnterminatedString
      | e :: rest2 =>
        match readStringLoop rest2 with
        | .ok (cs, rem) => .ok (unescape e :: cs, rem)
        | .error err => .error err
    else
      match readStringLoop rest with
      | .ok (cs, rem) => .ok (c :: cs, rem)
      | .error err => .error err

/-- Identifier characters (`is_alphanumeric() || ch == '_'`). -/
def isIdentChar (c : Char) : Bool := c.isAlphanum || c = '_'

/-- Number characters (`is_numeric() || ch == '.'`). -/
def isNumChar (c : Char) : Bool := c.isDigit || c = '.'

/-- The keyword table of `Lexer::read_identifier`. -/
def keywordOf (s : String) : Token :=
  if s = "syntax" then .Syntax
  else if s = "edition" then .Edition
  else if s = "package" then .Package
  else if s = "import" then .Import
  else if s = "public" then .Public
  else if s = "weak" then .Weak
  else if s = "message" then .Message
  else if s = "enum" then .Enum
  else if s = "service" then .Service
  else if s = "rpc" then .Rpc
  else if s = "returns" then .Returns
  else if s = "stream" then .Stream
  else if s = "optional" then .Optional
  else if s = "required" then .Required
  else if s = "repeated" then .Repeated
  else if s = "oneof" then .Oneof
  else if s = "option" then .Option
  else if s = "true" then .True
  else if s = "false" then .False
  else .Identifier s

/-- `Lexer::read_identifier` starting at the current character. -/
def readIdentTok (l : List Char) : List Char × Except ParseError Token :=
  let cs := l.takeWhile isIdentChar
  (l.drop cs.length, .ok (keywordOf (String.mk cs)))

/-- `Lexer::read_number` starting at the current character. -/
def readNumberTok (l : List Char) : List Char × Except ParseError Token :=
  match l with
  | '-' :: rest =>
    let ds := rest.takeWhile isNumChar
    (rest.drop ds.length, .ok (.NumberLiteral (String.mk ('-' :: ds))))
  | _ =>
    let ds := l.takeWhile isNumChar
    (l.drop ds.length, .ok (.NumberLiteral (String.mk ds)))

/-- `Lexer::next_token`: skip whitespace and comments, then classify the
next lexeme. Returns the remaining input together with the token (or the
lexing error, with the cursor exactly where Rust leaves it). -/
def nextToken (l0 : List Char) : List Char × Except ParseError Token :=
  let l := skipWS (l0.length + 1) l0
  match l with
  | [] => ([], .ok .Eof)
  | c :: rest =>
    if c = '"' then
      match readStringLoop rest with
      | .ok (cs, rem) => (rem, .ok (.StringLiteral (String.mk cs)))
      | .error e => ([], .error e)
    else if c = '{' then (rest, .ok .LeftBrace)
    else if c = '}' then (rest, .ok .RightBrace)
    else if c = '(' then (rest, .ok .LeftParen)
    else if c = ')' then (rest, .ok .RightParen)
    else if c = '[' then (rest, .ok .LeftBracket)
    else if c = ']' then (rest, .ok .RightBracket)
    else if c = ';' then (rest, .ok .Semicolon)
    else if c = ',' then (rest, .ok .Comma)
    else if c = '=' then (rest, .ok .Equals)
    else if c = '.' then (rest, .ok .Dot)
    else if c.isAlpha || c = '_' then readIdentTok (c :: rest)
    else if c.isDigit || c = '-' then readNumberTok (c :: rest)
    else (c :: rest, .error (.UnexpectedToken (String.mk [c])))

/-! ## Parser (`src/parser/parser_impl.rs`) -/

/-- Decimal value of a digit list. -/
def digitsVal (cs : List Char) : Nat :=
  cs.foldl (fun a c => a * 10 + (c.toNat - '0'.toNat)) 0

/-- Rust `str::parse::<u32>` restricted to the lexer's number lexemes:
nonempty, all digits, value within `u32`. -/
def parseU32? (s : String) : Option Nat :=
  let cs := s.data
  if cs ≠ [] ∧ cs.all Char.isDigit then
    let v := digitsVal cs
    if v ≤ 4294967295 then some v else none
  else none

/-- Rust `str::parse::<i32>` restricted to the lexer's number lexemes. -/
def parseI32? (s : String) : Option Int :=
  match s.data with
  | '-' :: rest =>
    if rest ≠ [] ∧ rest.all Char.isDigit then
      let v := digitsVal rest
      if v ≤ 2147483648 then some (-(v : Int)) else none
    else none
  | cs =>
    if cs ≠ [] ∧ cs.all Char.isDigit then
      let v := digitsVal cs
      if v ≤ 2147483647 then some (v : Int) else none
    else none

/-- Whether Rust `str::parse::<f64>` succeeds on a lexer number lexeme
(`[-]?[0-9.]*`): at least one digit and at most one dot. -/
def f64Accepts (s : String) : Bool :=
  let t := match s.data with
    | '-' :: rest => rest
    | cs => cs
  t.any Char.isDigit && (t.filter (fun c => c = '.')).length ≤ 1
    && t.all isNumChar

/-- Rust `Debug` rendering of a string (the escapes the claims exercise;
exotic control characters are outside every claim's inputs). -/
def rustDebugStr (s : String) : String :=
  "\"" ++ String.mk (s.data.flatMap fun c =>
    if c = '"' then ['\\', '"']
    else if c = '\\' then ['\\', '\\']
    else if c = '\n' then ['\\', 'n']
    else if c = '\r' then ['\\', 'r']
    else if c = '\t' then ['\\', 't']
    else [c]) ++ "\""

/-- `format!("{:?}", token)`: Rust's derived `Debug` for `Token`. -/
def tokenDebug : Token → String
  | .Syntax => "Syntax"
  | .Edition => "Edition"
  | .Package => "Package"
  | .Import => "Import"
  | .Public => "Public"
  | .Weak => "Weak"
  | .Message => "Message"
  | .Enum => "Enum"
  | .Service => "Service"
  | .Rpc => "Rpc"
  | .Returns => "Returns"
  | .Stream => "Stream"
  | .Optional => "Optional"
  | .Required => "Required"
  | .Repeated => "Repeated"
  | .Oneof => "Oneof"
  | .Option => "Option"
  | .True => "True"
  | .False => "False"
  | .Identifier s => "Identifier(" ++ rustDebugStr s ++ ")"
  | .StringLiteral s => "StringLiteral(" ++ rustDebugStr s ++ ")"
  | .NumberLiteral s => "NumberLiteral(" ++ rustDebugStr s ++ ")"
  | .LeftBrace => "LeftBrace"
  | .RightBrace => "RightBrace"
  | .LeftParen => "LeftParen"
  | .RightParen => "RightParen"
  | .LeftBracket => "LeftBracket"
  | .RightBracket => "RightBracket"
  | .Semicolon => "Semicolon"
  | .Comma => "Comma"
  | .Equals => "Equals"
  | .Dot => "Dot"
  | .Eof => "Eof"

/-- `Parser`: the lexer's remaining input plus the one-token lookahead. -/
structure PState where
  rest : List Char
  tok : Token

/-- `Parser::new`: prime the lookahead; a lexing error on the very first
token is swallowed by `unwrap_or(Token::Eof)`. -/
def parserNew (input : String) : PState :=
  match nextToken input.data with
  | (l, .ok t) => ⟨l, t⟩
  | (l, .error _) => ⟨l, .Eof⟩

/-- `Parser::advance`. -/
def pAdvance (st : PState) : Except ParseError PState :=
  match nextToken st.rest with
  | (l, .ok t) => .ok ⟨l, t⟩
  | (_, .error e) => .error e

/-- `Parser::expect`. -/
def pExpect (t : Token) (st : PState) : Except ParseError PState :=
  if st.tok = t then pAdvance st
  else .error (.Expected (tokenDebug t) (tokenDebug st.tok))

/-- `Parser::parse_syntax` (named for the `syntax` keyword it parses). -/
def parseSyntaxVersion (st : PState) : Except ParseError (String × PState) := do
  let st ← pExpect .Syntax st
  let st ← pExpect .Equals st
  match st.tok with
  | .StringLiteral s => do
    let st ← pAdvance st
    let st ← pExpect .Semicolon st
    return (s, st)
  | t => .error (.Expected "string literal" (tokenDebug t))

/-- `Parser::parse_edition`. -/
def parseEditionDecl (st : PState) : Except ParseError (String × PState) := do
  let st ← pExpect .Edition st
  let st ← pExpect .Equals st
  match st.tok with
  | .StringLiteral s => do
    let st ← pAdvance st
    let st ← pExpect .Semicolon st
    return (s, st)
  | t => .error (.Expected "string literal" (tokenDebug t))

/-- The dotted-identifier loop of `Parser::parse_package`. -/
def parsePackageGo : Nat → String → PState → Except ParseError (String × PState)
  | 0, _, _ => .error .UnexpectedEof
  | fuel + 1, acc, st =>
    match st.tok with
    | .Identifier name => do
      let st ← pAdvance st
      if st.tok = .Dot then do
        let st ← pAdvance st
        parsePackageGo fuel (acc ++ name ++ ".") st
      else
        return (acc ++ name, st)
    | _ => .ok (acc, st)

/-- `Parser::parse_package`. -/
def parsePackage (fuel : Nat) (st : PState) :
    Except ParseError (String × PState) := do
  let st ← pExpect .Package st
  let (name, st) ← parsePackageGo fuel "" st
  let st ← pExpect .Semicolon st
  return (name, st)

/-- `Parser::parse_import`. -/
def parseImport (st : PState) : Except ParseError (Statement × PState) := do
  let st ← pExpect .Import st
  let (isPublic, isWeak, st) ←
    if st.tok = .Public then do
      let st ← pAdvance st
      pure (true, false, st)
    else if st.tok = .Weak then do
      let st ← pAdvance st
      pure (false, true, st)
    else
      pure (false, false, st)
  match st.tok with
  | .StringLiteral path => do
    let st ← pAdvance st
    let st ← pExpect .Semicolon st
    return (.Import path isPublic isWeak, st)
  | t => .error (.Expected "string literal" (tokenDebug t))

/-- `Parser::parse_option_value`. -/
def parseOptionValue (st : PState) :
    Except ParseError (OptionValue × PState) := do
  let (v, st) ← (do
    match st.tok with
    | .StringLiteral s => pure (OptionValue.String s, st)
    | .NumberLiteral n =>
      if f64Accepts n then pure (OptionValue.Number n, st)
      else .error (.InvalidNumber n)
    | .True => pure (OptionValue.Bool true, st)
    | .False => pure (OptionValue.Bool false, st)
    | .Identifier id => pure (OptionValue.Identifier id, st)
    | t => .error (.Expected "option value" (tokenDebug t)) :
      Except ParseError (OptionValue × PState))
  let st ← pAdvance st
  return (v, st)

/-- `Parser::parse_option_name` (bare identifier or `(extension)` form). -/
def parseOptionName (st : PState) : Except ParseError (String × PState) := do
  if st.tok = .LeftParen then do
    let st ← pAdvance st
    match st.tok with
    | .Identifier id => do
      let st ← pAdvance st
      let st ← pExpect .RightParen st
      return ("(" ++ id ++ ")", st)
    | t => .error (.Expected "identifier" (tokenDebug t))
  else
    match st.tok with
    | .Identifier id => do
      let st ← pAdvance st
      return (id, st)
    | t => .error (.Expected "option name" (tokenDebug t))

/-- The `name = value, ...` loop of `Parser::parse_field_options`. -/
def parseFieldOptionsGo :
    Nat → OptMap → PState → Except ParseError (OptMap × PState)
  | 0, _, _ => .error .UnexpectedEof
  | fuel + 1, acc, st => do
    let (name, st) ← parseOptionName st
    let st ← pExpect .Equals st
    let (v, st) ← parseOptionValue st
    let acc := acc.insert name v
    if st.tok = .Comma then do
      let st ← pAdvance st
      parseFieldOptionsGo fuel acc st
    else
      return (acc, st)

/-- `Parser::parse_field_options`. -/
def parseFieldOptions (fuel : Nat) (st : PState) :
    Except ParseError (OptMap × PState) := do
  let st ← pExpect .LeftBracket st
  let (opts, st) ← parseFieldOptionsGo fuel [] st
  let st ← pExpect .RightBracket st
  return (opts, st)

/-- `Parser::parse_field_label`. -/
def parseFieldLabel (st : PState) :
    Except ParseError (FieldLabel × PState) := do
  let (l, st) ← (do
    match st.tok with
    | .Optional => pure (FieldLabel.Optional, st)
    | .Required => pure (FieldLabel.Required, st)
    | .Repeated => pure (FieldLabel.Repeated, st)
    | t => .error (.Expected "field label" (tokenDebug t)) :
      Except ParseError (FieldLabel × PState))
  let st ← pAdvance st
  return (l, st)

/-- `Parser::parse_field`. -/
def parseField (fuel : Nat) (st : PState) :
    Except ParseError (Field × PState) := do
  let (fieldType, st) ← (do
    match st.tok with
    | .Identifier t => pure (t, st)
    | t => .error (.Expected "field type" (tokenDebug t)) :
      Except ParseError (String × PState))
  let st ← pAdvance st
  let (name, st) ← (do
    match st.tok with
    | .Identifier n => pure (n, st)
    | t => .error (.Expected "field name" (tokenDebug t)) :
      Except ParseError (String × PState))
  let st ← pAdvance st
  let st ← pExpect .Equals st
  let (number, st) ← (do
    match st.tok with
    | .NumberLiteral n =>
      match parseU32? n with
      | some v => pure (v, st)
      | none => .error (.InvalidNumber n)
    | t => .error (.Expected "field number" (tokenDebug t)) :
      Except ParseError (Nat × PState))
  let st ← pAdvance st
  let (options, st) ←
    if st.tok = .LeftBracket then parseFieldOptions fuel st
    else pure (([] : OptMap), st)
  let st ← pExpect .Semicolon st
  return (⟨name, fieldType, number, none, options⟩, st)

/-- `Parser::parse_option` (standalone `option name = value;`). -/
def parseOption (st : PState) :
    Except ParseError ((String × OptionValue) × PState) := do
  let st ← pExpect .Option st
  let (name, st) ← (do
    match st.tok with
    | .Identifier n => pure (n, st)
    | t => .error (.Expected "option name" (tokenDebug t)) :
      Except ParseError (String × PState))
  let st ← pAdvance st
  let st ← pExpect .Equals st
  let (value, st) ← parseOptionValue st
  let st ← pExpect .Semicolon st
  return ((name, value), st)

/-- The body loop of `Parser::parse_oneof`. -/
def parseOneofGo :
    Nat → List Field → PState → Except ParseError (List Field × PState)
  | 0, _, _ => .error .UnexpectedEof
  | fuel + 1, acc, st =>
    if st.tok = .RightBrace then .ok (acc, st)
    else
      match st.tok with
      | .Identifier _ => do
        let (f, st) ← parseField fuel st
        parseOneofGo fuel (acc ++ [f]) st
      | .Semicolon => do
        let st ← pAdvance st
        parseOneofGo fuel acc st
      | t => .error (.UnexpectedToken (tokenDebug t))

/-- `Parser::parse_oneof`. -/
def parseOneof (fuel : Nat) (st : PState) :
    Except ParseError (Oneof × PState) := do
  let st ← pExpect .Oneof st
  let (name, st) ← (do
    match st.tok with
    | .Identifier n => pure (n, st)
    | t => .error (.Expected "oneof name" (tokenDebug t)) :
      Except ParseError (String × PState))
  let st ← pAdvance st
  let st ← pExpect .LeftBrace st
  let (fields, st) ← parseOneofGo fuel [] st
  let st ← pExpect .RightBrace st
  return (⟨name, fields⟩, st)

/-- The body loop of `Parser::parse_enum`. -/
def parseEnumGo : Nat → Enum → PState → Except ParseError (Enum × PState)
  | 0, _, _ => .error .UnexpectedEof
  | fuel + 1, acc, st =>
    if st.tok = .RightBrace then .ok (acc, st)
    else
      match st.tok with
      | .Option => do
        let ((name, value), st) ← parseOption st
        parseEnumGo fuel { acc with options := acc.options.insert name value } st
      | .Identifier valueName => do
        let st ← pAdvance st
        let st ← pExpect .Equals st
        let (number, st) ← (do
          match st.tok with
          | .NumberLiteral n =>
            match parseI32? n with
            | some v => pure (v, st)
            | none => .error (.InvalidNumber n)
          | t => .error (.Expected "enum value number" (tokenDebug t)) :
            Except ParseError (Int × PState))
        let st ← pAdvance st
        let (options, st) ←
          if st.tok = .LeftBracket then parseFieldOptions fuel st
          else pure (([] : OptMap), st)
        let st ← pExpect .Semicolon st
        parseEnumGo fuel
          { acc with values := acc.values ++ [⟨valueName, number, options⟩] } st
      | .Semicolon => do
        let st ← pAdvance st
        parseEnumGo fuel acc st
      | t => .error (.UnexpectedToken (tokenDebug t))

/-- `Parser::parse_enum`. -/
def parseEnum (fuel : Nat) (st : PState) :
    Except ParseError (Enum × PState) := do
  let st ← pExpect .Enum st
  let (name, st) ← (do
    match st.tok with
    | .Identifier n => pure (n, st)
    | t => .error (.Expected "enum name" (tokenDebug t)) :
      Except ParseError (String × PState))
  let st ← pAdvance st
  let st ← pExpect .LeftBrace st
  let (e, st) ← parseEnumGo fuel ⟨name, [], []⟩ st
  let st ← pExpect .RightBrace st
  return (e, st)

/-- The `{ ...options... }` loop of `Parser::parse_rpc`. -/
def parseRpcOptsGo :
    Nat → OptMap → PState → Except ParseError (OptMap × PState)
  | 0, _, _ => .error .UnexpectedEof
  | fuel + 1, acc, st =>
    if st.tok = .RightBrace then .ok (acc, st)
    else
      match st.tok with
      | .Option => do
        let ((name, value), st) ← parseOption st
        parseRpcOptsGo fuel (acc.insert name value) st
      | .Semicolon => do
        let st ← pAdvance st
        parseRpcOptsGo fuel acc st
      | t => .error (.UnexpectedToken (tokenDebug t))

/-- `Parser::parse_rpc`. -/
def parseRpc (fuel : Nat) (st : PState) :
    Except ParseError (Method × PState) := do
  let st ← pExpect .Rpc st
  let (name, st) ← (do
    match st.tok with
    | .Identifier n => pure (n, st)
    | t => .error (.Expected "method name" (tokenDebug t)) :
      Except ParseError (String × PState))
  let st ← pAdvance st
  let st ← pExpect .LeftParen st
  let (clientStreaming, st) ←
    if st.tok = .Stream then do
      let st ← pAdvance st
      pure (true, st)
    else pure (false, st)
  let (requestType, st) ← (do
    match st.tok with
    | .Identifier t => pure (t, st)
    | t => .error (.Expected "request type" (tokenDebug t)) :
      Except ParseError (String × PState))
  let st ← pAdvance st
  let st ← pExpect .RightParen st
  let st ← pExpect .Returns st
  let st ← pExpect .LeftParen st
  let (serverStreaming, st) ←
    if st.tok = .Stream then do
      let st ← pAdvance st
      pure (true, st)
    else pure (false, st)
  let (responseType, st) ← (do
    match st.tok with
    | .Identifier t => pure (t, st)
    | t => .error (.Expected "response type" (tokenDebug t)) :
      Except ParseError (String × PState))
  let st ← pAdvance st
  let st ← pExpect .RightParen st
  let (options, st) ←
    if st.tok = .LeftBrace then do
      let st ← pAdvance st
      let (opts, st) ← parseRpcOptsGo fuel [] st
      let st ← pExpect .RightBrace st
      pure (opts, st)
    else do
      let st ← pExpect .Semicolon st
      pure (([] : OptMap), st)
  return (⟨name, requestType, responseType, clientStreaming, serverStreaming,
           options⟩, st)

/-- The body loop of `Parser::parse_service`. -/
def parseServiceGo :
    Nat → Service → PState → Except ParseError (Service × PState)
  | 0, _, _ => .error .UnexpectedEof
  | fuel + 1, acc, st =>
    if st.tok = .RightBrace then .ok (acc, st)
    else
      match st.tok with
      | .Rpc => do
        let (m, st) ← parseRpc fuel st
        parseServiceGo fuel { acc with methods := acc.methods ++ [m] } st
      | .Option => do
        let ((name, value), st) ← parseOption st
        parseServiceGo fuel
          { acc with options := acc.options.insert name value } st
      | .Semicolon => do
        let st ← pAdvance st
        parseServiceGo fuel acc st
      | t => .error (.UnexpectedToken (tokenDebug t))

/-- `Parser::parse_service`. -/
def parseService (fuel : Nat) (st : PState) :
    Except ParseError (Service × PState) := do
  let st ← pExpect .Service st
  let (name, st) ← (do
    match st.tok with
    | .Identifier n => pure (n, st)
    | t => .error (.Expected "identifier" (tokenDebug t)) :
      Except ParseError (String × PState))
  let st ← pAdvance st
  let st ← pExpect .LeftBrace st
  let (svc, st) ← parseServiceGo fuel ⟨name, [], []⟩ st
  let st ← pExpect .RightBrace st
  return (svc, st)

mutual

/-- `Parser::parse_message`. -/
def parseMessage : Nat → PState → Except ParseError (Message × PState)
  | 0, _ => .error .UnexpectedEof
  | fuel + 1, st => do
    let st ← pExpect .Message st
    let (name, st) ← (do
      match st.tok with
      | .Identifier n => pure (n, st)
      | t => .error (.Expected "identifier" (tokenDebug t)) :
        Except ParseError (String × PState))
    let st ← pAdvance st
    let st ← pExpect .LeftBrace st
    let (m, st) ← parseMessageGo fuel (.mk name [] [] [] [] []) st
    let st ← pExpect .RightBrace st
    return (m, st)

/-- The body loop of `Parser::parse_message`. -/
def parseMessageGo : Nat → Message → PState → Except ParseError (Message × PState)
  | 0, _, _ => .error .UnexpectedEof
  | fuel + 1, acc, st =>
    if st.tok = .RightBrace then .ok (acc, st)
    else
      match acc, st.tok with
      | .mk n fs os nm ne op, .Message => do
        let (m, st) ← parseMessage fuel st
        parseMessageGo fuel (.mk n fs os (nm ++ [m]) ne op) st
      | .mk n fs os nm ne op, .Enum => do
        let (e, st) ← parseEnum fuel st
        parseMessageGo fuel (.mk n fs os nm (ne ++ [e]) op) st
      | .mk n fs os nm ne op, .Oneof => do
        let (o, st) ← parseOneof fuel st
        parseMessageGo fuel (.mk n fs (os ++ [o]) nm ne op) st
      | .mk n fs os nm ne op, .Option => do
        let ((name, value), st) ← parseOption st
        parseMessageGo fuel (.mk n fs os nm ne (op.insert name value)) st
      | .mk n fs os nm ne op, .Optional => do
        let (label, st) ← parseFieldLabel st
        let (f, st) ← parseField fuel st
        parseMessageGo fuel
          (.mk n (fs ++ [{ f with label := some label }]) os nm ne op) st
      | .mk n fs os nm ne op, .Required => do
        let (label, st) ← parseFieldLabel st
        let (f, st) ← parseField fuel st
        parseMessageGo fuel
          (.mk n (fs ++ [{ f with label := some label }]) os nm ne op) st
      | .mk n fs os nm ne op, .Repeated => do
        let (label, st) ← parseFieldLabel st
        let (f, st) ← parseField fuel st
        parseMessageGo fuel
          (.mk n (fs ++ [{ f with label := some label }]) os nm ne op) st
      | .mk n fs os nm ne op, .Identifier _ => do
        let (f, st) ← parseField fuel st
        parseMessageGo fuel (.mk n (fs ++ [f]) os nm ne op) st
      | acc, .Semicolon => do
        let st ← pAdvance st
        parseMessageGo fuel acc st
      | _, t => .error (.UnexpectedToken (tokenDebug t))

end

/-- The top-level statement loop of `Parser::parse`. -/
def parseTopGo : Nat → ProtoFile → PState → Except ParseError ProtoFile
  | 0, _, _ => .error .UnexpectedEof
  | fuel + 1, acc, st =>
    if st.tok = .Eof then .ok acc
    else
      match st.tok with
      | .Syntax => do
        let (s, st) ← parseSyntaxVersion st
        parseTopGo fuel { acc with syntaxStr := some s } st
      | .Edition => do
        let (e, st) ← parseEditionDecl st
        parseTopGo fuel { acc with edition := some e } st
      | .Package => do
        let (name, st) ← parsePackage fuel st
        parseTopGo fuel
          { acc with statements := acc.statements ++ [.Package name] } st
      | .Import => do
        let (stmt, st) ← parseImport st
        parseTopGo fuel { acc with statements := acc.statements ++ [stmt] } st
      | .Message => do
        let (m, st) ← parseMessage fuel st
        parseTopGo fuel
          { acc with statements := acc.statements ++ [.Message m] } st
      | .Enum => do
        let (e, st) ← parseEnum fuel st
        parseTopGo fuel
          { acc with statements := acc.statements ++ [.Enum e] } st
      | .Service => do
        let (s, st) ← parseService fuel st
        parseTopGo fuel
          { acc with statements := acc.statements ++ [.Service s] } st
      | .Option => do
        let ((name, value), st) ← parseOption st
        parseTopGo fuel
          { acc with statements := acc.statements ++ [.Option name value] } st
      | .Semicolon => do
        let st ← pAdvance st
        parseTopGo fuel acc st
      | t => .error (.UnexpectedToken (tokenDebug t))

/-- Fuel that dwarfs any possible number of parsing steps for `input` (each
loop iteration consumes at least one token, each token at least one
character, and nesting depth is bounded by the input length). -/
def fuelFor (input : String) : Nat := (input.length + 2) * (input.length + 2)

/-- `parse_proto` / `Parser::parse`: the public parsing entry point. -/
def parseProto (input : String) : Except ParseError ProtoFile :=
  parseTopGo (fuelFor input) ⟨none, none, []⟩ (parserNew input)

/-! ## Validator (`src/parser/validator.rs`) -/

/-- `ValidationError` from `src/parser/validator.rs`. -/
structure ValidationError where
  message : String
  line : Nat
  column : Nat
deriving DecidableEq, Repr

/-- `ValidationError::new`: the position is hardcoded to line 0, column 0. -/
def ValidationError.new (message : String) : ValidationError := ⟨message, 0, 0⟩

/-- `format!("Duplicate field number {} in message '{}'", ..)`. -/
def dupFieldNumberMsg (n : Nat) (mname : String) : String :=
  "Duplicate field number " ++ toString n ++ " in message '" ++ mname ++ "'"

/-- `format!("Field number cannot be 0 in field '{}' of message '{}'", ..)`. -/
def zeroFieldNumberMsg (fname mname : String) : String :=
  "Field number cannot be 0 in field '" ++ fname ++ "' of message '"
    ++ mname ++ "'"

/-- `format!("Field number {} is reserved for protocol buffer implementation
in field '{}' of message '{}'", ..)`. -/
def reservedFieldNumberMsg (n : Nat) (fname mname : String) : String :=
  "Field number " ++ toString n
    ++ " is reserved for protocol buffer implementation in field '"
    ++ fname ++ "' of message '" ++ mname ++ "'"

/-- `format!("Duplicate field number {} in oneof '{}' of message '{}'", ..)`. -/
def dupOneofFieldMsg (n : Nat) (oname mname : String) : String :=
  "Duplicate field number " ++ toString n ++ " in oneof '" ++ oname
    ++ "' of message '" ++ mname ++ "'"

/-- `format!("Duplicate enum value {} in enum '{}'", ..)`. -/
def dupEnumValueMsg (n : Int) (ename : String) : String :=
  "Duplicate enum value " ++ toString n ++ " in enum '" ++ ename ++ "'"

/-- `format!("Enum '{}' must have a zero value", ..)`. -/
def missingZeroEnumMsg (ename : String) : String :=
  "Enum '" ++ ename ++ "' must have a zero value"

/-- `format!("Duplicate method name '{}' in service '{}'", ..)`. -/
def dupServiceMethodMsg (mname sname : String) : String :=
  "Duplicate method name '" ++ mname ++ "' in service '" ++ sname ++ "'"

/-- `format!("Unsupported edition '{edition}'. Only edition 2023 is
supported.")`. -/
def unsupportedEditionMsg (e : String) : String :=
  "Unsupported edition '" ++ e ++ "'. Only edition 2023 is supported."

/-- `format!("Invalid syntax '{syntax}'. Must be 'proto2' or 'proto3'.")`. -/
def invalidSyntaxVersionMsg (s : String) : String :=
  "Invalid syntax '" ++ s ++ "'. Must be 'proto2' or 'proto3'."

/-- The `Validator` struct: both scratch maps, keyed by the bare declared
name; the `HashSet` values are lists used only through membership. -/
structure VState where
  used_field_numbers : List (String × List Nat)
  used_enum_values : List (String × List Int)

/-- `HashMap::entry(k).or_default()` read side: the set stored at a key
(empty when absent). -/
def assocGet {α : Type} (m : List (String × List α)) (k : String) : List α :=
  match m with
  | [] => []
  | (k', v) :: rest => if k' = k then v else assocGet rest k

/-- Store a set back at a key (the write side of the in-place mutation). -/
def assocPut {α : Type} (m : List (String × List α)) (k : String)
    (v : List α) : List (String × List α) :=
  match m with
  | [] => [(k, v)]
  | (k', v') :: rest =>
      if k' = k then (k, v) :: rest else (k', v') :: assocPut rest k v

/-- The direct-field loop of `Validator::validate_message`: for each field,
the duplicate-number check against the scope's set, the zero check and the
reserved-range check, threading the set of seen numbers. -/
def checkFields (mname : String) :
    List Field → List Nat → List Nat × List ValidationError
  | [], seen => (seen, [])
  | f :: rest, seen =>
    let isDup := f.number ∈ seen
    let seen' := if isDup then seen else f.number :: seen
    let errs :=
      (if isDup then [ValidationError.new (dupFieldNumberMsg f.number mname)]
       else [])
      ++ (if f.number = 0 then
            [ValidationError.new (zeroFieldNumberMsg f.name mname)]
          else [])
      ++ (if 19000 ≤ f.number ∧ f.number ≤ 19999 then
            [ValidationError.new (reservedFieldNumberMsg f.number f.name mname)]
          else [])
    let r := checkFields mname rest seen'
    (r.1, errs ++ r.2)

/-- The oneof-field loop of `Validator::validate_message`: only the
duplicate-number check, against the same scope set. -/
def checkOneofFields (mname oname : String) :
    List Field → List Nat → List Nat × List ValidationError
  | [], seen => (seen, [])
  | f :: rest, seen =>
    let isDup := f.number ∈ seen
    let seen' := if isDup then seen else f.number :: seen
    let errs :=
      if isDup then [ValidationError.new (dupOneofFieldMsg f.number oname mname)]
      else []
    let r := checkOneofFields mname oname rest seen'
    (r.1, errs ++ r.2)

/-- The loop over a message's oneofs in `Validator::validate_message`. -/
def checkOneofs (mname : String) :
    List Oneof → List Nat → List Nat × List ValidationError
  | [], seen => (seen, [])
  | o :: rest, seen =>
    let r1 := checkOneofFields mname o.name o.fields seen
    let r2 := checkOneofs mname rest r1.1
    (r2.1, r1.2 ++ r2.2)

/-- The value loop of `Validator::validate_enum`: duplicate checks against
the scope's enum-value set. -/
def checkEnumValues (ename : String) :
    List EnumValue → List Int → List Int × List ValidationError
  | [], seen => (seen, [])
  | v :: rest, seen =>
    let isDup := v.number ∈ seen
    let seen' := if isDup then seen else v.number :: seen
    let errs :=
      if isDup then [ValidationError.new (dupEnumValueMsg v.number ename)]
      else []
    let r := checkEnumValues ename rest seen'
    (r.1, errs ++ r.2)

/-- `Validator::validate_enum`. -/
def validateEnum (e : Enum) (st : VState) : VState × List ValidationError :=
  let seen0 := assocGet st.used_enum_values e.name
  let r := checkEnumValues e.name e.values seen0
  let missing :=
    if ¬ (e.values.any fun v => v.number = 0) ∧ e.values ≠ [] then
      [ValidationError.new (missingZeroEnumMsg e.name)]
    else []
  ({ st with used_enum_values := assocPut st.used_enum_values e.name r.1 },
   r.2 ++ missing)

/-- The method loop of `Validator::validate_service` (its name set is local
to one call). -/
def checkMethods (sname : String) :
    List Method → List String → List ValidationError
  | [], _ => []
  | m :: rest, seen =>
    (if m.name ∈ seen then
       [ValidationError.new (dupServiceMethodMsg m.name sname)]
     else [])
    ++ checkMethods sname rest (if m.name ∈ seen then seen else m.name :: seen)

/-- `Validator::validate_service`. -/
def validateService (s : Service) (st : VState) :
    VState × List ValidationError :=
  (st, checkMethods s.name s.methods [])

/-- The fold of `validate_enum` over a message's nested enums. -/
def validateEnums : List Enum → VState → VState × List ValidationError
  | [], st => (st, [])
  | e :: es, st =>
    let r1 := validateEnum e st
    let r2 := validateEnums es r1.1
    (r2.1, r1.2 ++ r2.2)

mutual

/-- `Validator::validate_message`: direct fields under all three checks,
then the oneofs' fields folded into the same scope set under the duplicate
check, then recursion into nested messages and nested enums. -/
def validateMessage : Message → VState → VState × List ValidationError
  | .mk name fields oneofs nestedMsgs nestedEnums _, st =>
    let seen0 := assocGet st.used_field_numbers name
    let r1 := checkFields name fields seen0
    let r2 := checkOneofs name oneofs r1.1
    let st1 :=
      { st with used_field_numbers := assocPut st.used_field_numbers name r2.1 }
    let r3 := validateMessages nestedMsgs st1
    let r4 := validateEnums nestedEnums r3.1
    (r4.1, r1.2 ++ r2.2 ++ r3.2 ++ r4.2)

/-- The fold of `validate_message` over nested messages. -/
def validateMessages : List Message → VState → VState × List ValidationError
  | [], st => (st, [])
  | m :: ms, st =>
    let r1 := validateMessage m st
    let r2 := validateMessages ms r1.1
    (r2.1, r1.2 ++ r2.2)

end

/-- `Validator::validate_statement`. -/
def validateStatement (s : Statement) (st : VState) :
    VState × List ValidationError :=
  match s with
  | .Message m => validateMessage m st
  | .Enum e => validateEnum e st
  | .Service sv => validateService sv st
  | _ => (st, [])

/-- The statement loop of `Validator::validate_proto_file`. -/
def validateStatements : List Statement → VState → VState × List ValidationError
  | [], st => (st, [])
  | s :: ss, st =>
    let r1 := validateStatement s st
    let r2 := validateStatements ss r1.1
    (r2.1, r1.2 ++ r2.2)

/-- `Validator::validate_proto_file`: the edition gate, the syntax gate,
then every statement in order. -/
def validateProtoFile (pf : ProtoFile) (st : VState) :
    VState × List ValidationError :=
  let editionErrs :=
    match pf.edition with
    | some e =>
      if e ≠ "2023" then [ValidationError.new (unsupportedEditionMsg e)] else []
    | none => []
  let syntaxErrs :=
    match pf.syntaxStr with
    | some s =>
      if s ≠ "proto2" ∧ s ≠ "proto3" then
        [ValidationError.new (invalidSyntaxVersionMsg s)]
      else []
    | none => []
  let r := validateStatements pf.statements st
  (r.1, editionErrs ++ syntaxErrs ++ r.2)

/-- `validate_proto`: a fresh `Validator` for every call. -/
def validateProto (pf : ProtoFile) : List ValidationError :=
  (validateProtoFile pf ⟨[], []⟩).2

/-- The core pipeline a client (`compute_diagnostics`) runs on each text:
`parse_proto` then, only on success, `validate_proto`. -/
def checkText (s : String) : Except ParseError (List ValidationError) :=
  (parseProto s).map validateProto

/-! ## Specification-level findings

Restatements of the validator's findings in the history-based style of
spec.md §4.3 (each check phrased against the plain list of earlier numbers
or names, with no set state), to be compared with the implementation. -/

/-- Spec §4.3 step 3 for direct fields: for each field in order, a
`DuplicateFieldNumber` finding when its number already occurred earlier in
the scope, a `ZeroFieldNumber` finding when it is 0, and a
`ReservedFieldNumberRange` finding when it lies in [19000, 19999]. -/
def specDirectFieldFindings (mname : String) :
    List Nat → List Field → List ValidationError
  | _, [] => []
  | prev, f :: rest =>
    (if f.number ∈ prev then
       [ValidationError.new (dupFieldNumberMsg f.number mname)]
     else [])
    ++ (if f.number = 0 then
          [ValidationError.new (zeroFieldNumberMsg f.name mname)]
        else [])
    ++ (if 19000 ≤ f.number ∧ f.number ≤ 19999 then
          [ValidationError.new (reservedFieldNumberMsg f.number f.name mname)]
        else [])
    ++ specDirectFieldFindings mname (prev ++ [f.number]) rest

/-- A oneof's fields folded into the parent message's number scope: only the
duplicate check is applied to them (the amended reading of spec §4.3 step 3;
the code runs neither the zero nor the reserved check here). -/
def specOneofFieldFindings (mname oname : String) :
    List Nat → List Field → List ValidationError
  | _, [] => []
  | prev, f :: rest =>
    (if f.number ∈ prev then
       [ValidationError.new (dupOneofFieldMsg f.number oname mname)]
     else [])
    ++ specOneofFieldFindings mname oname (prev ++ [f.number]) rest

/-- All oneofs of a message folded, in order, into the same scope. -/
def specOneofFindings (mname : String) :
    List Nat → List Oneof → List ValidationError
  | _, [] => []
  | prev, o :: os =>
    specOneofFieldFindings mname o.name prev o.fields
    ++ specOneofFindings mname (prev ++ o.fields.map Field.number) os

/-- The message-scope findings: direct fields under all three checks, then
the oneofs' fields (sharing the same number namespace) under the duplicate
check alone. -/
def specMessageFindings (m : Message) : List ValidationError :=
  specDirectFieldFindings m.name [] m.fields
  ++ specOneofFindings m.name (m.fields.map Field.number) m.oneofs

/-- Spec §4.3 step 4, duplicate part: a `DuplicateEnumValue` finding for
each value whose number repeats an earlier value's number. -/
def specEnumDupFindings (ename : String) :
    List Int → List EnumValue → List ValidationError
  | _, [] => []
  | prev, v :: rest =>
    (if v.number ∈ prev then
       [ValidationError.new (dupEnumValueMsg v.number ename)]
     else [])
    ++ specEnumDupFindings ename (prev ++ [v.number]) rest

/-- Spec §4.3 step 4: the duplicate findings, then exactly one
`MissingZeroEnumValue` finding iff the enum is non-empty and none of its
values is 0. -/
def specEnumFindings (e : Enum) : List ValidationError :=
  specEnumDupFindings e.name [] e.values
  ++ (if e.values ≠ [] ∧ ∀ v ∈ e.values, v.number ≠ 0 then
        [ValidationError.new (missingZeroEnumMsg e.name)]
      else [])

/-- Spec §4.3 step 5: a `DuplicateServiceMethod` finding for every method
whose name already occurred earlier in the same service. -/
def specMethodFindings (sname : String) :
    List String → List Method → List ValidationError
  | _, [] => []
  | prev, m :: rest =>
    (if m.name ∈ prev then
       [ValidationError.new (dupServiceMethodMsg m.name sname)]
     else [])
    ++ specMethodFindings sname (prev ++ [m.name]) rest

/-- The per-service findings of the spec. -/
def specServiceFindings (s : Service) : List ValidationError :=
  specMethodFindings s.name [] s.methods

/-! ## Bridging the set-threaded loops to the history-based spec -/

/-- The direct-field loop agrees with the spec form whenever the seen-set
and the history agree up to membership; the resulting set holds exactly the
old members plus the field numbers. -/
theorem checkFields_eq_spec (mname : String) (fields : List Field) :
    ∀ (seen prev : List Nat), (∀ x, x ∈ seen ↔ x ∈ prev) →
      (checkFields mname fields seen).2 = specDirectFieldFindings mname prev fields
      ∧ (∀ x, x ∈ (checkFields mname fields seen).1 ↔
          x ∈ prev ∨ x ∈ fields.map Field.number) := by
  induction fields with
  | nil =>
    intro seen prev h
    refine ⟨rfl, fun x => ?_⟩
    simp [checkFields, h x]
  | cons f rest ih =>
    intro seen prev h
    have hnext : ∀ x, x ∈ (if f.number ∈ seen then seen else f.number :: seen)
        ↔ x ∈ prev ++ [f.number] := by
      intro x
      by_cases hd : f.number ∈ prev
      · rw [if_pos ((h f.number).mpr hd)]
        simp only [List.mem_append, List.mem_singleton, h x]
        constructor
        · exact Or.inl
        · rintro (hx | rfl)
          · exact hx
          · exact hd
      · rw [if_neg (fun hc => hd ((h f.number).mp hc))]
        simp [h x, or_comm]
    obtain ⟨he, hm⟩ := ih _ (prev ++ [f.number]) hnext
    constructor
    · show (checkFields mname (f :: rest) seen).2 = _
      simp only [checkFields, specDirectFieldFindings]
      rw [if_congr (h f.number) rfl rfl, he]
    · intro x
      show x ∈ (checkFields mname rest _).1 ↔ _
      rw [hm x]
      simp [or_assoc]

/-- The oneof-field loop agrees with its spec form under the same
membership invariant. -/
theorem checkOneofFields_eq_spec (mname oname : String) (fields : List Field) :
    ∀ (seen prev : List Nat), (∀ x, x ∈ seen ↔ x ∈ prev) →
      (checkOneofFields mname oname fields seen).2
        = specOneofFieldFindings mname oname prev fields
      ∧ (∀ x, x ∈ (checkOneofFields mname oname fields seen).1 ↔
          x ∈ prev ∨ x ∈ fields.map Field.number) := by
  induction fields with
  | nil =>
    intro seen prev h
    refine ⟨rfl, fun x => ?_⟩
    simp [checkOneofFields, h x]
  | cons f rest ih =>
    intro seen prev h
    have hnext : ∀ x, x ∈ (if f.number ∈ seen then seen else f.number :: seen)
        ↔ x ∈ prev ++ [f.number] := by
      intro x
      by_cases hd : f.number ∈ prev
      · rw [if_pos ((h f.number).mpr hd)]
        simp only [List.mem_append, List.mem_singleton, h x]
        constructor
        · exact Or.inl
        · rintro (hx | rfl)
          · exact hx
          · exact hd
      · rw [if_neg (fun hc => hd ((h f.number).mp hc))]
        simp [h x, or_comm]
    obtain ⟨he, hm⟩ := ih _ (prev ++ [f.number]) hnext
    constructor
    · show (checkOneofFields mname oname (f :: rest) seen).2 = _
      simp only [checkOneofFields, specOneofFieldFindings]
      rw [if_congr (h f.number) rfl rfl, he]
    · intro x
      show x ∈ (checkOneofFields mname oname rest _).1 ↔ _
      rw [hm x]
      simp [or_assoc]

/-- The loop over all oneofs agrees with its spec form. -/
theorem checkOneofs_eq_spec (mname : String) (oneofs : List Oneof) :
    ∀ (seen prev : List Nat), (∀ x, x ∈ seen ↔ x ∈ prev) →
      (checkOneofs mname oneofs seen).2 = specOneofFindings mname prev oneofs := by
  induction oneofs with
  | nil => intro seen prev _; rfl
  | cons o os ih =>
    intro seen prev h
    obtain ⟨he, hm⟩ := checkOneofFields_eq_spec mname o.name o.fields seen prev h
    have hnext : ∀ x, x ∈ (checkOneofFields mname o.name o.fields seen).1
        ↔ x ∈ prev ++ o.fields.map Field.number := by
      intro x
      rw [hm x]
      simp
    show (checkOneofFields mname o.name o.fields seen).2
        ++ (checkOneofs mname os _).2 = _
    rw [he, ih _ (prev ++ o.fields.map Field.number) hnext]
    rfl

/-- Reading another key after a write: unaffected. -/
theorem assocGet_put_ne {α : Type} (m : List (String × List α)) (k k' : String)
    (v : List α) (h : k ≠ k') : assocGet (assocPut m k v) k' = assocGet m k' := by
  induction m with
  | nil => simp [assocGet, assocPut, h]
  | cons p rest ih =>
    by_cases hk : p.1 = k
    · simp only [assocPut, assocGet, hk, if_pos rfl]
      rw [if_neg h, if_neg]
      · rw [hk] at *
        exact h
    · simp only [assocPut, assocGet, if_neg hk]
      by_cases hk' : p.1 = k'
      · rw [if_pos hk', if_pos hk']
      · rw [if_neg hk', if_neg hk', ih]

/-- A message with no nested messages and no nested enums, validated in a
state whose field-number scope at its name is empty, produces exactly the
spec findings; its only effect on the state is writing its own scope set. -/
theorem validateMessage_free (m : Message) (st : VState)
    (h1 : m.nested_messages = []) (h2 : m.nested_enums = [])
    (h0 : assocGet st.used_field_numbers m.name = []) :
    validateMessage m st =
      ({ st with used_field_numbers := (assocPut st.used_field_numbers m.name
          (checkOneofs m.name m.oneofs (checkFields m.name m.fields []).1).1) },
       specMessageFindings m) := by
  obtain ⟨name, fields, oneofs, nm, ne, op⟩ := m
  simp only [Message.nested_messages] at h1
  simp only [Message.nested_enums] at h2
  simp only [Message.name] at h0
  subst h1
  subst h2
  simp only [Message.name, Message.fields, Message.oneofs] at *
  obtain ⟨he1, hm1⟩ := checkFields_eq_spec name fields [] [] (fun x => Iff.rfl)
  have hm1' : ∀ x, x ∈ (checkFields name fields []).1
      ↔ x ∈ fields.map Field.number := by
    intro x
    rw [hm1 x]
    simp
  have he2 := checkOneofs_eq_spec name oneofs
    (checkFields name fields []).1 (fields.map Field.number) hm1'
  show validateMessage (.mk name fields oneofs [] [] op) st = _
  simp only [validateMessage, validateMessages, validateEnums, h0]
  rw [he1, he2]
  simp [specMessageFindings, Message.name, Message.fields, Message.oneofs]

/-- The enum-value loop agrees with the spec form under the membership
invariant. -/
theorem checkEnumValues_eq_spec (ename : String) (vals : List EnumValue) :
    ∀ (seen prev : List Int), (∀ x, x ∈ seen ↔ x ∈ prev) →
      (checkEnumValues ename vals seen).2 = specEnumDupFindings ename prev vals := by
  induction vals with
  | nil => intro seen prev _; rfl
  | cons v rest ih =>
    intro seen prev h
    have hnext : ∀ x, x ∈ (if v.number ∈ seen then seen else v.number :: seen)
        ↔ x ∈ prev ++ [v.number] := by
      intro x
      by_cases hd : v.number ∈ prev
      · rw [if_pos ((h v.number).mpr hd)]
        simp only [List.mem_append, List.mem_singleton, h x]
        constructor
        · exact Or.inl
        · rintro (hx | rfl)
          · exact hx
          · exact hd
      · rw [if_neg (fun hc => hd ((h v.number).mp hc))]
        simp [h x, or_comm]
    show (if v.number ∈ seen then _ else _) ++ (checkEnumValues ename rest _).2 = _
    rw [if_congr (h v.number) rfl rfl, ih _ (prev ++ [v.number]) hnext]
    rfl

/-- The method loop agrees with the spec form under the membership
invariant. -/
theorem checkMethods_eq_spec (sname : String) (methods : List Method) :
    ∀ (seen prev : List String), (∀ x, x ∈ seen ↔ x ∈ prev) →
      checkMethods sname methods seen = specMethodFindings sname prev methods := by
  induction methods with
  | nil => intro seen prev _; rfl
  | cons m rest ih =>
    intro seen prev h
    have hnext : ∀ x, x ∈ (if m.name ∈ seen then seen else m.name :: seen)
        ↔ x ∈ prev ++ [m.name] := by
      intro x
      by_cases hd : m.name ∈ prev
      · rw [if_pos ((h m.name).mpr hd)]
        simp only [List.mem_append, List.mem_singleton, h x]
        constructor
        · exact Or.inl
        · rintro (hx | rfl)
          · exact hx
          · exact hd
      · rw [if_neg (fun hc => hd ((h m.name).mp hc))]
        simp [h x, or_comm]
    show (if m.name ∈ seen then _ else _) ++ checkMethods sname rest _ = _
    rw [if_congr (h m.name) rfl rfl, ih _ (prev ++ [m.name]) hnext]
    rfl

/-- Whether a `*/` pair occurs anywhere in a list (adjacent characters). -/
def hasClose : List Char → Bool
  | [] => false
  | [_] => false
  | a :: b :: rest => (a = '*' && b = '/') || hasClose (b :: rest)

/-- On a suffix with no `*/`, the block-comment loop drops everything but
the final character. -/
theorem blockSkip_noClose :
    ∀ l : List Char, hasClose l = false → blockSkip l = l.drop (l.length - 1) := by
  intro l
  induction l with
  | nil => intro _; rfl
  | cons a rest ih =>
    intro h
    cases rest with
    | nil => rfl
    | cons b rest2 =>
      simp only [hasClose, Bool.or_eq_false_iff, Bool.and_eq_false_iff,
        decide_eq_false_iff_not] at h
      have hnab : ¬(a = '*' ∧ b = '/') := by
        rintro ⟨ha, hb⟩
        rcases h.1 with hc | hc
        · simp [ha] at hc
        · simp [hb] at hc
      have h2 : hasClose (b :: rest2) = false := h.2
      show blockSkip (a :: b :: rest2) = _
      rw [blockSkip, if_neg hnab, ih h2]
      simp [List.length_cons, List.drop_succ_cons]

/-- `HashMap::insert` then `get` at the same key yields the inserted value. -/
theorem lookup_insert_self (om : OptMap) (k : String) (v : OptionValue) :
    OptMap.lookup (OptMap.insert om k v) k = some v := by
  induction om with
  | nil => simp [OptMap.insert, OptMap.lookup]
  | cons p rest ih =>
    by_cases hk : p.1 = k
    · simp [OptMap.insert, OptMap.lookup, hk]
    · simp [OptMap.insert, OptMap.lookup, hk, ih]

/-! ## Claim theorems -/

/-- C1 (corrected): for a message with no nested types, validation emits
exactly the spec findings in which each oneof's fields are folded into the
parent message's number scope under the DUPLICATE check alone — the zero
and reserved checks run only for direct fields (the original claim's "same
three checks" fails, see the counterexample). -/
theorem oneof_fold_duplicate_check_only (m : Message)
    (h1 : m.nested_messages = []) (h2 : m.nested_enums = []) :
    validateProto ⟨none, none, [.Message m]⟩ = specMessageFindings m := by
  have h := validateMessage_free m ⟨[], []⟩ h1 h2 rfl
  simp [validateProto, validateProtoFile, validateStatements,
    validateStatement, h]

/-- Witness for C1 at a concrete message: a oneof field duplicating a direct
field's number 1, next to a oneof field numbered 0. -/
theorem oneof_fold_duplicate_check_only_witness :
    validateProto ⟨none, none, [.Message (.mk "M" [⟨"a", "int32", 1, none, []⟩]
      [⟨"o", [⟨"b", "int32", 1, none, []⟩, ⟨"c", "int32", 0, none, []⟩]⟩]
      [] [] [])]⟩
      = specMessageFindings (.mk "M" [⟨"a", "int32", 1, none, []⟩]
      [⟨"o", [⟨"b", "int32", 1, none, []⟩, ⟨"c", "int32", 0, none, []⟩]⟩]
      [] [] []) :=
  oneof_fold_duplicate_check_only _ rfl rfl

/-- C1's counterexample: a oneof field numbered 0 yields NO finding at all
(the claim demands a `ZeroFieldNumber` finding), while the same field
declared directly does yield one. -/
theorem oneof_zero_field_no_finding_cex :
    validateProto ⟨none, none, [.Message (.mk "M" []
      [⟨"o", [⟨"a", "int32", 0, none, []⟩]⟩] [] [] [])]⟩ = []
    ∧ validateProto ⟨none, none, [.Message (.mk "M"
      [⟨"a", "int32", 0, none, []⟩] [] [] [] [])]⟩
      = [ValidationError.new (zeroFieldNumberMsg "a" "M")] :=
  ⟨rfl, rfl⟩

/-- C5 (confirmed): two sibling top-level messages with distinct names and
no nested types validate to the concatenation of their independent spec
findings — their field-number scopes do not cross-contaminate. -/
theorem sibling_messages_independent (m1 m2 : Message)
    (hname : m1.name ≠ m2.name)
    (h1 : m1.nested_messages = []) (h2 : m1.nested_enums = [])
    (h3 : m2.nested_messages = []) (h4 : m2.nested_enums = []) :
    validateProto ⟨none, none, [.Message m1, .Message m2]⟩
      = specMessageFindings m1 ++ specMessageFindings m2 := by
  have e1 := validateMessage_free m1 ⟨[], []⟩ h1 h2 rfl
  have h0 : assocGet (assocPut ([] : List (String × List Nat)) m1.name
      ((checkOneofs m1.name m1.oneofs (checkFields m1.name m1.fields []).1).1))
      m2.name = [] := by
    rw [assocGet_put_ne _ _ _ _ hname]
    rfl
  have e2 := validateMessage_free m2
    ({ (⟨[], []⟩ : VState) with used_field_numbers :=
        (assocPut ([] : List (String × List Nat)) m1.name
          ((checkOneofs m1.name m1.oneofs
            (checkFields m1.name m1.fields []).1).1)) })
    h3 h4 h0
  simp [validateProto, validateProtoFile, validateStatements,
    validateStatement, e1, e2]

/-- Witness for C5: `A` and `B` each declare their own field numbered 1;
validation emits nothing. -/
theorem sibling_messages_independent_witness :
    validateProto ⟨none, none,
      [.Message (.mk "A" [⟨"x", "int32", 1, none, []⟩] [] [] [] []),
       .Message (.mk "B" [⟨"y", "string", 1, none, []⟩] [] [] [] [])]⟩ = [] :=
  (sibling_messages_independent
    (.mk "A" [⟨"x", "int32", 1, none, []⟩] [] [] [] [])
    (.mk "B" [⟨"y", "string", 1, none, []⟩] [] [] [] [])
    (by decide) rfl rfl rfl rfl).trans rfl

/-- C6 (confirmed): an enum validates to exactly the spec findings — one
`DuplicateEnumValue` per value repeating an earlier number, then exactly one
`MissingZeroEnumValue` iff the enum is non-empty and has no zero value. -/
theorem enum_zero_and_duplicate_checks (e : Enum) :
    validateProto ⟨none, none, [.Enum e]⟩ = specEnumFindings e := by
  have hd := checkEnumValues_eq_spec e.name e.values [] [] (fun x => Iff.rfl)
  have hcond : (¬(e.values.any fun v => v.number = 0) = true ∧ e.values ≠ [])
      ↔ (e.values ≠ [] ∧ ∀ v ∈ e.values, v.number ≠ 0) := by
    simp only [List.any_eq_true, decide_eq_true_eq, not_exists]
    constructor
    · rintro ⟨hz, hne⟩
      exact ⟨hne, fun v hv hz0 => hz v ⟨hv, hz0⟩⟩
    · rintro ⟨hne, hz⟩
      exact ⟨fun v hv => hz v hv.1 hv.2, hne⟩
  simp only [validateProto, validateProtoFile, validateStatements,
    validateStatement, validateEnum, specEnumFindings]
  rw [show assocGet (⟨[], []⟩ : VState).used_enum_values e.name = [] from rfl,
    hd, if_congr hcond rfl rfl]
  simp

/-- C7 (confirmed): a message whose single direct field is numbered `n`
yields a `ZeroFieldNumber` finding iff `n = 0` and a
`ReservedFieldNumberRange` finding iff `19000 ≤ n ≤ 19999`; in particular
19500 is flagged and 18999 and 20000 are not. -/
theorem reserved_range_boundaries :
    (∀ (mname fname ftype : String) (lbl : Option FieldLabel)
        (opts : OptMap) (n : Nat),
      validateProto ⟨none, none,
          [.Message (.mk mname [⟨fname, ftype, n, lbl, opts⟩] [] [] [] [])]⟩
        = (if n = 0 then [ValidationError.new (zeroFieldNumberMsg fname mname)]
           else [])
          ++ (if 19000 ≤ n ∧ n ≤ 19999 then
                [ValidationError.new (reservedFieldNumberMsg n fname mname)]
              else []))
    ∧ validateProto ⟨none, none,
        [.Message (.mk "M" [⟨"f", "int32", 19500, none, []⟩] [] [] [] [])]⟩
      = [ValidationError.new (reservedFieldNumberMsg 19500 "f" "M")]
    ∧ validateProto ⟨none, none,
        [.Message (.mk "M" [⟨"f", "int32", 18999, none, []⟩] [] [] [] [])]⟩ = []
    ∧ validateProto ⟨none, none,
        [.Message (.mk "M" [⟨"f", "int32", 20000, none, []⟩] [] [] [] [])]⟩
      = [] := by
  refine ⟨?_, rfl, rfl, rfl⟩
  intro mname fname ftype lbl opts n
  have h := validateMessage_free
    (.mk mname [⟨fname, ftype, n, lbl, opts⟩] [] [] [] []) ⟨[], []⟩ rfl rfl rfl
  simp [validateProto, validateProtoFile, validateStatements,
    validateStatement, h, specMessageFindings, specDirectFieldFindings,
    specOneofFindings, Message.name, Message.fields, Message.oneofs]

/-- C8 (confirmed): a service validates to exactly the spec findings — one
`DuplicateServiceMethod` per method whose name already occurred, never for a
first occurrence — and a service with exactly two same-named methods yields
exactly one finding. -/
theorem service_duplicate_method_single_finding :
    (∀ s : Service,
      validateProto ⟨none, none, [.Service s]⟩ = specServiceFindings s)
    ∧ (∀ (sname mname rq1 rs1 rq2 rs2 : String) (c1 s1 c2 s2 : Bool)
        (o1 o2 oS : OptMap),
      validateProto ⟨none, none, [.Service ⟨sname,
          [⟨mname, rq1, rs1, c1, s1, o1⟩, ⟨mname, rq2, rs2, c2, s2, o2⟩], oS⟩]⟩
        = [ValidationError.new (dupServiceMethodMsg mname sname)]) := by
  have hGen : ∀ s : Service,
      validateProto ⟨none, none, [.Service s]⟩ = specServiceFindings s := by
    intro s
    have h := checkMethods_eq_spec s.name s.methods [] [] (fun x => Iff.rfl)
    simp [validateProto, validateProtoFile, validateStatements,
      validateStatement, validateService, specServiceFindings, h]
  refine ⟨hGen, ?_⟩
  intro sname mname rq1 rs1 rq2 rs2 c1 s1 c2 s2 o1 o2 oS
  rw [hGen]
  simp [specServiceFindings, specMethodFindings]

/-- C2 (corrected): a parse failure returns the error and validation never
runs (zero diagnostics); `syntax = proto3;` fails with the exact
`Expected` value; but a lexing error on the very first token is swallowed
by `Parser::new` (`unwrap_or(Token::Eof)`) and parse then SUCCEEDS with an
empty file, so the original "for every input containing a lex error" claim
fails (see the counterexample). -/
theorem parse_error_fatality :
    checkText "syntax = proto3;"
      = .error (.Expected "string literal" "Identifier(\"proto3\")")
    ∧ (∀ (s : String) (e : ParseError),
        parseProto s = .error e → checkText s = .error e)
    ∧ parseProto "@" = .ok ⟨none, none, []⟩ := by
  refine ⟨rfl, ?_, rfl⟩
  intro s e h
  simp [checkText, h, Except.map]

/-- C2's counterexample: lexing `@` errors, yet `parse_proto "@"` succeeds
with an empty file and validation runs, producing zero diagnostics. -/
theorem lex_error_first_token_swallowed_cex :
    (nextToken ("@".data)).2 = .error (.UnexpectedToken "@")
    ∧ parseProto "@" = .ok ⟨none, none, []⟩
    ∧ checkText "@" = .ok [] :=
  ⟨rfl, rfl, rfl⟩

/-- C4 (corrected): after an unterminated block comment the skip loop stops
one character before end-of-input (`blockSkip` keeps the final character of
any close-less suffix), and that final character is then lexed as an
ordinary token: `/*x` yields `Identifier "x"`, only `/*` alone or a final
whitespace yields `Eof`, and a final `*` even yields a lexing error. -/
theorem unterminated_comment_skips_to_last_char
    (body : List Char) (h : hasClose body = false) :
    blockSkip body = body.drop (body.length - 1) :=
  blockSkip_noClose body h

/-- Witness for C4: the close-less body `['x']` survives `blockSkip`. -/
theorem unterminated_comment_skips_to_last_char_witness :
    blockSkip ['x'] = List.drop (List.length ['x'] - 1) ['x'] :=
  unterminated_comment_skips_to_last_char ['x'] rfl

/-- C4's counterexample: the token after the unterminated comment `/*x` is
`Identifier "x"`, not `Eof` as the claim states — and `/* *` even produces
a `LexError`. -/
theorem unterminated_comment_token_cex :
    (nextToken ("/*x".data)).2 = .ok (.Identifier "x")
    ∧ Token.Identifier "x" ≠ Token.Eof
    ∧ (nextToken ("/*".data)).2 = .ok .Eof
    ∧ (nextToken ("/* ".data)).2 = .ok .Eof
    ∧ (nextToken ("/* *".data)).2 = .error (.UnexpectedToken "*") :=
  ⟨rfl, by decide, rfl, rfl, rfl⟩

/-- C9 (confirmed): the empty input parses to the empty `ProtoFile` with no
syntax, no edition and no statements, validating to zero diagnostics; and
the whole pipeline is a pure function, so repeated runs on identical text
are identical. -/
theorem parse_empty_and_deterministic :
    parseProto "" = .ok ⟨none, none, []⟩
    ∧ checkText "" = .ok []
    ∧ (∀ s : String, parseProto s = parseProto s ∧ checkText s = checkText s) :=
  ⟨rfl, rfl, fun _ => ⟨rfl, rfl⟩⟩

/-- C10 (confirmed): a repeated standalone option name inside a message body
silently overwrites — the map keeps only the later value (`HashMap::insert`
semantics, proved for the insert used by `parse_message`), the end-to-end
parse succeeds with exactly the later value, and validation reports
nothing. -/
theorem duplicate_option_last_wins :
    (∀ (om : OptMap) (k : String) (v1 v2 : OptionValue),
        OptMap.lookup (OptMap.insert (OptMap.insert om k v1) k v2) k = some v2)
    ∧ (∀ b1 b2 : Bool,
        parseProto ("message M \x7b option a = " ++ (if b1 then "true" else "false")
            ++ "; option a = " ++ (if b2 then "true" else "false") ++ "; \x7d")
          = .ok ⟨none, none, [.Message (.mk "M" [] [] [] []
              [("a", .Bool b2)])]⟩)
    ∧ checkText "message M { option a = true; option a = false; }" = .ok [] := by
  refine ⟨fun om k v1 v2 => lookup_insert_self _ _ _, ?_, rfl⟩
  intro b1 b2
  cases b1 <;> cases b2 <;> rfl

/-! ## Every diagnostic position is hardcoded to (0, 0) -/

/-- Membership in a conditional singleton built by `ValidationError.new`
forces the hardcoded position. -/
theorem mem_ite_new {c : Prop} [Decidable c] {msg : String}
    {e : ValidationError}
    (h : e ∈ (if c then [ValidationError.new msg] else [])) :
    e.line = 0 ∧ e.column = 0 := by
  split at h
  · simp at h
    subst h
    exact ⟨rfl, rfl⟩
  · simp at h

theorem checkFields_lines (mname : String) :
    ∀ (fields : List Field) (seen : List Nat),
      ∀ e ∈ (checkFields mname fields seen).2, e.line = 0 ∧ e.column = 0 := by
  intro fields
  induction fields with
  | nil => intro seen e he; simp [checkFields] at he
  | cons f rest ih =>
    intro seen e he
    simp only [checkFields, List.mem_append] at he
    rcases he with ((h1 | h2) | h3) | h4
    · exact mem_ite_new h1
    · exact mem_ite_new h2
    · exact mem_ite_new h3
    · exact ih _ e h4

theorem checkOneofFields_lines (mname oname : String) :
    ∀ (fields : List Field) (seen : List Nat),
      ∀ e ∈ (checkOneofFields mname oname fields seen).2,
        e.line = 0 ∧ e.column = 0 := by
  intro fields
  induction fields with
  | nil => intro seen e he; simp [checkOneofFields] at he
  | cons f rest ih =>
    intro seen e he
    simp only [checkOneofFields, List.mem_append] at he
    rcases he with h1 | h2
    · exact mem_ite_new h1
    · exact ih _ e h2

theorem checkOneofs_lines (mname : String) :
    ∀ (oneofs : List Oneof) (seen : List Nat),
      ∀ e ∈ (checkOneofs mname oneofs seen).2, e.line = 0 ∧ e.column = 0 := by
  intro oneofs
  induction oneofs with
  | nil => intro seen e he; simp [checkOneofs] at he
  | cons o os ih =>
    intro seen e he
    simp only [checkOneofs, List.mem_append] at he
    rcases he with h1 | h2
    · exact checkOneofFields_lines mname o.name o.fields _ e h1
    · exact ih _ e h2

theorem checkEnumValues_lines (ename : String) :
    ∀ (vals : List EnumValue) (seen : List Int),
      ∀ e ∈ (checkEnumValues ename vals seen).2, e.line = 0 ∧ e.column = 0 := by
  intro vals
  induction vals with
  | nil => intro seen e he; simp [checkEnumValues] at he
  | cons v rest ih =>
    intro seen e he
    simp only [checkEnumValues, List.mem_append] at he
    rcases he with h1 | h2
    · exact mem_ite_new h1
    · exact ih _ e h2

theorem validateEnum_lines (en : Enum) (st : VState) :
    ∀ e ∈ (validateEnum en st).2, e.line = 0 ∧ e.column = 0 := by
  intro e he
  simp only [validateEnum, List.mem_append] at he
  rcases he with h1 | h2
  · exact checkEnumValues_lines en.name en.values _ e h1
  · exact mem_ite_new h2

theorem checkMethods_lines (sname : String) :
    ∀ (methods : List Method) (seen : List String),
      ∀ e ∈ checkMethods sname methods seen, e.line = 0 ∧ e.column = 0 := by
  intro methods
  induction methods with
  | nil => intro seen e he; simp [checkMethods] at he
  | cons m rest ih =>
    intro seen e he
    simp only [checkMethods, List.mem_append] at he
    rcases he with h1 | h2
    · exact mem_ite_new h1
    · exact ih _ e h2

theorem validateEnums_lines :
    ∀ (es : List Enum) (st : VState),
      ∀ e ∈ (validateEnums es st).2, e.line = 0 ∧ e.column = 0 := by
  intro es
  induction es with
  | nil => intro st e he; simp [validateEnums] at he
  | cons en rest ih =>
    intro st e he
    simp only [validateEnums, List.mem_append] at he
    rcases he with h1 | h2
    · exact validateEnum_lines en st e h1
    · exact ih _ e h2

mutual

theorem validateMessage_lines :
    ∀ (m : Message) (st : VState),
      ∀ e ∈ (validateMessage m st).2, e.line = 0 ∧ e.column = 0
  | .mk name fields oneofs nm ne op, st => by
    intro e he
    simp only [validateMessage, List.mem_append] at he
    rcases he with ((h1 | h2) | h3) | h4
    · exact checkFields_lines name fields _ e h1
    · exact checkOneofs_lines name oneofs _ e h2
    · exact validateMessages_lines nm _ e h3
    · exact validateEnums_lines ne _ e h4

theorem validateMessages_lines :
    ∀ (ms : List Message) (st : VState),
      ∀ e ∈ (validateMessages ms st).2, e.line = 0 ∧ e.column = 0
  | [], _ => by intro e he; simp [validateMessages] at he
  | m :: ms, st => by
    intro e he
    simp only [validateMessages, List.mem_append] at he
    rcases he with h1 | h2
    · exact validateMessage_lines m st e h1
    · exact validateMessages_lines ms _ e h2

end

theorem validateStatement_lines (s : Statement) (st : VState) :
    ∀ e ∈ (validateStatement s st).2, e.line = 0 ∧ e.column = 0 := by
  cases s with
  | Message m => exact validateMessage_lines m st
  | Enum en => exact validateEnum_lines en st
  | Service sv => exact checkMethods_lines sv.name sv.methods []
  | Package _ => intro e he; simp [validateStatement] at he
  | Import _ _ _ => intro e he; simp [validateStatement] at he
  | Option _ _ => intro e he; simp [validateStatement] at he

theorem validateStatements_lines :
    ∀ (ss : List Statement) (st : VState),
      ∀ e ∈ (validateStatements ss st).2, e.line = 0 ∧ e.column = 0 := by
  intro ss
  induction ss with
  | nil => intro st e he; simp [validateStatements] at he
  | cons s rest ih =>
    intro st e he
    simp only [validateStatements, List.mem_append] at he
    rcases he with h1 | h2
    · exact validateStatement_lines s st e h1
    · exact ih _ e h2

theorem validateProto_lines (pf : ProtoFile) :
    ∀ e ∈ validateProto pf, e.line = 0 ∧ e.column = 0 := by
  obtain ⟨so, eo, sts⟩ := pf
  cases eo with
  | none =>
    cases so with
    | none =>
      intro e he
      simp only [validateProto, validateProtoFile, List.nil_append] at he
      exact validateStatements_lines sts _ e he
    | some sv =>
      intro e he
      simp only [validateProto, validateProtoFile, List.nil_append,
        List.mem_append] at he
      rcases he with h1 | h2
      · exact mem_ite_new h1
      · exact validateStatements_lines sts _ e h2
  | some ed =>
    cases so with
    | none =>
      intro e he
      simp only [validateProto, validateProtoFile, List.append_nil,
        List.nil_append, List.mem_append] at he
      rcases he with h1 | h2
      · exact mem_ite_new h1
      · exact validateStatements_lines sts _ e h2
    | some sv =>
      intro e he
      simp only [validateProto, validateProtoFile, List.mem_append] at he
      rcases he with (h1 | h2) | h3
      · exact mem_ite_new h1
      · exact mem_ite_new h2
      · exact validateStatements_lines sts _ e h3

/-- C3 (code bug): the code reports EVERY validator diagnostic at line 0,
column 0 (`ValidationError::new` hardcodes the position and tokens carry no
position at all), while the claim — a stated design requirement — demands
true token positions; shown universally and at the concrete
duplicate-field input. -/
theorem validator_reports_line_zero :
    (∀ (pf : ProtoFile), ∀ e ∈ validateProto pf, e.line = 0 ∧ e.column = 0)
    ∧ validateProto ⟨none, none, [.Message (.mk "M"
        [⟨"a", "string", 1, none, []⟩, ⟨"b", "int32", 1, none, []⟩]
        [] [] [] [])]⟩
      = [⟨dupFieldNumberMsg 1 "M", 0, 0⟩] :=
  ⟨validateProto_lines, rfl⟩
